import Mathlib

/-!
# Verification of the `af2_conformations` orchestration notebook

This development shallowly embeds the one piece of bespoke control flow in
the repository — the template-selection / parameter-sweep cell of
`notebooks/choose_templates.ipynb` — and proves the documented properties of
that orchestration layer.

The notebook cell does, in order:
1. construct an `MMSeqs2Runner` from a job name and a protein sequence
   (the runner stores the sequence with whitespace removed);
2. call `run_job` once, obtaining the alignment text (`a3m_lines`) and the
   template directory path (`template_path`);
3. run a nested sweep `for nseq in range(16, 34): for n_model in range(5):`
   where each iteration draws `model_id = random.choice((1, 2))`, builds the
   output name `f"{n_model}_{nseq}.pdb"` and calls
   `predict.predict_structure_from_templates` with
   `max_msa_clusters = nseq // 2`, `max_extra_msa = nseq`,
   `max_recycles = 1`.

The `mmseqs2` and `predict` helper modules are external to the notebook;
where a property depends on their behaviour we model that behaviour from the
specification (each such definition carries a doc comment saying so).
-/

namespace Af2Conformations

/-- One invocation of `predict.predict_structure_from_templates`: the
positional and keyword arguments the sweep cell passes. -/
structure PredictionRequest where
  seq : String
  outname : String
  a3m_lines : String
  template_path : String
  model_id : Nat
  max_msa_clusters : Nat
  max_extra_msa : Nat
  max_recycles : Nat

/-- Python `random.choice` over a list of options, driven by a raw random
draw `r`: it returns the element at the uniformly chosen index
`r % opts.length`. -/
def randomChoice (opts : List Nat) (r : Nat) : Nat :=
  opts.getD (r % opts.length) 0

/-- The notebook's `model_id = random.choice((1, 2))`. -/
def modelChoice (r : Nat) : Nat :=
  randomChoice [1, 2] r

/-- The notebook's `outname = f"{n_model}_{nseq}.pdb"`. -/
def outStr (n_model nseq : Nat) : String :=
  Nat.repr n_model ++ "_" ++ Nat.repr nseq ++ ".pdb"

/-- The argument record built by one iteration of the sweep body, given the
current depth `nseq`, repetition index `n_model` and the raw random draw `r`
consumed by `random.choice`. -/
def mkRequest (seq a3m tp : String) (nseq n_model r : Nat) : PredictionRequest :=
  { seq := seq
    outname := outStr n_model nseq
    a3m_lines := a3m
    template_path := tp
    model_id := modelChoice r
    max_msa_clusters := nseq / 2
    max_extra_msa := nseq
    max_recycles := 1 }

/-- The inner loop `for n_model in range(reps)` at a fixed depth `nseq`:
the `reps` prediction invocations it performs, in order.  `draws` supplies
the raw random value consumed by `random.choice` at iteration
`(nseq, n_model)`. -/
def sweepChunk (reps : Nat) (draws : Nat → Nat → Nat)
    (seq a3m tp : String) (nseq : Nat) : List PredictionRequest :=
  (List.range reps).map fun n_model =>
    mkRequest seq a3m tp nseq n_model (draws nseq n_model)

/-- The nested sweep `for nseq in range(lo, lo + n): for n_model in range(reps)`,
returning the prediction invocations in execution order.  `seq`, `a3m` and
`tp` are the sequence, alignment text and template path fixed before the
loops.  The notebook instantiates `lo = 16`, `n = 18`, `reps = 5`. -/
def sweepRequests (lo n reps : Nat) (draws : Nat → Nat → Nat)
    (seq a3m tp : String) : List PredictionRequest :=
  (List.range' lo n).flatMap (sweepChunk reps draws seq a3m tp)

/-- The notebook's hard-coded job name. -/
def jobname : String := "T4_lysozyme"

/-- The notebook's hard-coded T4 lysozyme sequence. -/
def inputSequence : String :=
  "MNIFEMLRIDEGLRLKIYKDTEGYYTIGIGHLLTKSPSLNAAKSELDKAIGRNCNGVIT" ++
  "KDEAEKLFNQDVDAAVRGILRNAKLKPVYDSLDAVRRCALINMVFQMGETGVAGFTNSL" ++
  "RMLQQKRWDEAAVNLAKSRWYNQTPNRAKRVITTFRTGTWDAYKNL"

/-- The notebook's hard-coded template list (`pdbs`). -/
def pdbs : List String := ["6LB8_A", "6LB8_C", "4PK0_A", "6FW2_A"]

/-- Modelled from the spec and the notebook's own note
(`mmseqs2_runner removes whitespace from seq`): the `MMSeqs2Runner`
constructor, whose code is not part of this notebook, stores the
caller-supplied sequence with all whitespace characters removed; the sweep
passes this stored value (`mmseqs2_runner.seq`) to every prediction. -/
def runnerSeq (sequence : String) : String :=
  ⟨sequence.data.filter fun c => !c.isWhitespace⟩

/-- The notebook's sweep cell with its literal loop bounds, parameterised by
the random draws and the bundle returned by the single `run_job` call. -/
def notebookSweep (draws : Nat → Nat → Nat) (a3m tp : String) :
    List PredictionRequest :=
  sweepRequests 16 18 5 draws (runnerSeq inputSequence) a3m tp

/-! ## Basic structure of the sweep -/

theorem sweepRequests_succ (lo n reps : Nat) (draws : Nat → Nat → Nat)
    (s a t : String) :
    sweepRequests lo (n + 1) reps draws s a t =
      sweepChunk reps draws s a t lo ++ sweepRequests (lo + 1) n reps draws s a t := by
  unfold sweepRequests
  rw [List.range'_succ, List.flatMap_cons]

theorem length_sweepChunk (reps : Nat) (draws : Nat → Nat → Nat)
    (s a t : String) (nseq : Nat) :
    (sweepChunk reps draws s a t nseq).length = reps := by
  simp [sweepChunk]

theorem length_sweepRequests (lo n reps : Nat) (draws : Nat → Nat → Nat)
    (s a t : String) :
    (sweepRequests lo n reps draws s a t).length = n * reps := by
  induction n generalizing lo with
  | zero => simp [sweepRequests]
  | succ k ih =>
    rw [sweepRequests_succ, List.length_append, length_sweepChunk, ih]
    have hs : (k + 1) * reps = k * reps + reps := by ring
    omega

theorem mem_sweepRequests {lo n reps : Nat} {draws : Nat → Nat → Nat}
    {s a t : String} {req : PredictionRequest} :
    req ∈ sweepRequests lo n reps draws s a t ↔
      ∃ i j, i < n ∧ j < reps ∧
        req = mkRequest s a t (lo + i) j (draws (lo + i) j) := by
  unfold sweepRequests sweepChunk
  simp only [List.mem_flatMap, List.mem_map, List.mem_range, List.mem_range',
    one_mul]
  constructor
  · rintro ⟨nseq, ⟨i, hi, rfl⟩, j, hj, rfl⟩
    exact ⟨i, j, hi, hj, rfl⟩
  · rintro ⟨i, j, hi, hj, rfl⟩
    exact ⟨lo + i, ⟨i, hi, rfl⟩, j, hj, rfl⟩

theorem sweepRequests_getElem (lo n reps : Nat) (draws : Nat → Nat → Nat)
    (s a t : String) (i j : Nat) (hi : i < n) (hj : j < reps) :
    (sweepRequests lo n reps draws s a t)[i * reps + j]? =
      some (mkRequest s a t (lo + i) j (draws (lo + i) j)) := by
  induction n generalizing lo i with
  | zero => omega
  | succ k ih =>
    rw [sweepRequests_succ]
    cases i with
    | zero =>
      rw [List.getElem?_append_left
        (by rw [length_sweepChunk]; omega)]
      have hz : 0 * reps + j = j := by omega
      rw [hz]
      simp [sweepChunk, List.getElem?_range hj]
    | succ m =>
      rw [List.getElem?_append_right
        (by rw [length_sweepChunk]
            have hs : (m + 1) * reps = m * reps + reps := by ring
            omega)]
      rw [length_sweepChunk]
      have hidx : (m + 1) * reps + j - reps = m * reps + j := by
        have hs : (m + 1) * reps = m * reps + reps := by ring
        omega
      rw [hidx]
      have := ih (lo + 1) m (by omega)
      have harg : lo + 1 + m = lo + (m + 1) := by omega
      rw [harg] at this
      exact this

@[simp] theorem mkRequest_seq (s a t : String) (nseq j r : Nat) :
    (mkRequest s a t nseq j r).seq = s := rfl

@[simp] theorem mkRequest_outname (s a t : String) (nseq j r : Nat) :
    (mkRequest s a t nseq j r).outname = outStr j nseq := rfl

@[simp] theorem mkRequest_a3m (s a t : String) (nseq j r : Nat) :
    (mkRequest s a t nseq j r).a3m_lines = a := rfl

@[simp] theorem mkRequest_tp (s a t : String) (nseq j r : Nat) :
    (mkRequest s a t nseq j r).template_path = t := rfl

@[simp] theorem mkRequest_model_id (s a t : String) (nseq j r : Nat) :
    (mkRequest s a t nseq j r).model_id = modelChoice r := rfl

@[simp] theorem mkRequest_clusters (s a t : String) (nseq j r : Nat) :
    (mkRequest s a t nseq j r).max_msa_clusters = nseq / 2 := rfl

@[simp] theorem mkRequest_extra (s a t : String) (nseq j r : Nat) :
    (mkRequest s a t nseq j r).max_extra_msa = nseq := rfl

@[simp] theorem mkRequest_recycles (s a t : String) (nseq j r : Nat) :
    (mkRequest s a t nseq j r).max_recycles = 1 := rfl

/-- A fixed stream of raw random draws, used to instantiate witnesses. -/
def draws0 : Nat → Nat → Nat := fun _ _ => 0

/-- C1: every prediction invocation of the sweep uses sampling parameters
that are a fixed function of the current depth value `nseq`:
`max_msa_clusters = nseq / 2` (integer division, so this covers odd depths),
`max_extra_msa = nseq`, and `max_recycles` is the constant `1`, for every
depth in the caller-chosen range. -/
theorem sweep_params_fixed_by_depth (lo n reps : Nat)
    (draws : Nat → Nat → Nat) (s a t : String) :
    ∀ req ∈ sweepRequests lo n reps draws s a t,
      ∃ nseq, lo ≤ nseq ∧ nseq < lo + n ∧
        req.max_msa_clusters = nseq / 2 ∧ req.max_extra_msa = nseq ∧
        req.max_recycles = 1 := by
  intro req hreq
  rcases mem_sweepRequests.mp hreq with ⟨i, j, hi, hj, rfl⟩
  exact ⟨lo + i, by omega, by omega, rfl, rfl, rfl⟩

theorem sweep_params_fixed_by_depth_witness :
    ∃ nseq, 16 ≤ nseq ∧ nseq < 16 + 18 ∧
      (mkRequest "S" "A" "T" (16 + 1) 0 (draws0 (16 + 1) 0)).max_msa_clusters = nseq / 2 ∧
      (mkRequest "S" "A" "T" (16 + 1) 0 (draws0 (16 + 1) 0)).max_extra_msa = nseq ∧
      (mkRequest "S" "A" "T" (16 + 1) 0 (draws0 (16 + 1) 0)).max_recycles = 1 :=
  sweep_params_fixed_by_depth 16 18 5 draws0 "S" "A" "T" _
    (mem_sweepRequests.mpr ⟨1, 0, by omega, by omega, rfl⟩)

/-- C2: a full run of the sweep over `n` depth values with `reps` repetitions
per depth performs exactly `n * reps` prediction invocations, and the
invocation at flattened position `i * reps + j` is exactly the one for the
`i`-th depth value and `j`-th repetition — the strictly sequential
nested-loop order. -/
theorem sweep_count_and_order (lo n reps : Nat) (draws : Nat → Nat → Nat)
    (s a t : String) :
    (sweepRequests lo n reps draws s a t).length = n * reps ∧
    ∀ i j, i < n → j < reps →
      (sweepRequests lo n reps draws s a t)[i * reps + j]? =
        some (mkRequest s a t (lo + i) j (draws (lo + i) j)) :=
  ⟨length_sweepRequests lo n reps draws s a t,
   fun i j hi hj => sweepRequests_getElem lo n reps draws s a t i j hi hj⟩

theorem sweep_count_and_order_witness :
    (sweepRequests 16 18 5 draws0 "S" "A" "T").length = 90 ∧
    (sweepRequests 16 18 5 draws0 "S" "A" "T")[2 * 5 + 3]? =
      some (mkRequest "S" "A" "T" (16 + 2) 3 (draws0 (16 + 2) 3)) :=
  ⟨by rw [(sweep_count_and_order 16 18 5 draws0 "S" "A" "T").1],
   (sweep_count_and_order 16 18 5 draws0 "S" "A" "T").2 2 3 (by omega) (by omega)⟩

/-! ## Numeric relation between the two alignment caps (C9) -/

/-- C9: in every prediction invocation the cluster cap is the integer floor
of half the depth (`nseq // 2`), so `max_msa_clusters ≤ max_extra_msa`
always holds, with `max_extra_msa = 2 * max_msa_clusters` exactly when the
depth is even and `max_extra_msa = 2 * max_msa_clusters + 1` when odd. -/
theorem sweep_cluster_cap_floor_div (lo n reps : Nat)
    (draws : Nat → Nat → Nat) (s a t : String) :
    ∀ req ∈ sweepRequests lo n reps draws s a t,
      req.max_msa_clusters = req.max_extra_msa / 2 ∧
      req.max_msa_clusters ≤ req.max_extra_msa ∧
      (req.max_extra_msa % 2 = 0 → req.max_extra_msa = 2 * req.max_msa_clusters) ∧
      (req.max_extra_msa % 2 = 1 → req.max_extra_msa = 2 * req.max_msa_clusters + 1) := by
  intro req hreq
  rcases mem_sweepRequests.mp hreq with ⟨i, j, hi, hj, rfl⟩
  show (lo + i) / 2 = (lo + i) / 2 ∧ (lo + i) / 2 ≤ lo + i ∧
    ((lo + i) % 2 = 0 → lo + i = 2 * ((lo + i) / 2)) ∧
    ((lo + i) % 2 = 1 → lo + i = 2 * ((lo + i) / 2) + 1)
  omega

theorem sweep_cluster_cap_floor_div_witness :
    (mkRequest "S" "A" "T" (16 + 1) 0 (draws0 (16 + 1) 0)).max_msa_clusters =
      (mkRequest "S" "A" "T" (16 + 1) 0 (draws0 (16 + 1) 0)).max_extra_msa / 2 ∧
    (mkRequest "S" "A" "T" (16 + 1) 0 (draws0 (16 + 1) 0)).max_msa_clusters ≤
      (mkRequest "S" "A" "T" (16 + 1) 0 (draws0 (16 + 1) 0)).max_extra_msa ∧
    ((mkRequest "S" "A" "T" (16 + 1) 0 (draws0 (16 + 1) 0)).max_extra_msa % 2 = 0 →
      (mkRequest "S" "A" "T" (16 + 1) 0 (draws0 (16 + 1) 0)).max_extra_msa =
        2 * (mkRequest "S" "A" "T" (16 + 1) 0 (draws0 (16 + 1) 0)).max_msa_clusters) ∧
    ((mkRequest "S" "A" "T" (16 + 1) 0 (draws0 (16 + 1) 0)).max_extra_msa % 2 = 1 →
      (mkRequest "S" "A" "T" (16 + 1) 0 (draws0 (16 + 1) 0)).max_extra_msa =
        2 * (mkRequest "S" "A" "T" (16 + 1) 0 (draws0 (16 + 1) 0)).max_msa_clusters + 1) :=
  sweep_cluster_cap_floor_div 16 18 5 draws0 "S" "A" "T" _
    (mem_sweepRequests.mpr ⟨1, 0, by omega, by omega, rfl⟩)

/-! ## The network-variant draw (C4) -/

theorem modelChoice_eq (r : Nat) :
    modelChoice r = if r % 2 = 0 then 1 else 2 := by
  unfold modelChoice randomChoice
  rcases Nat.mod_two_eq_zero_or_one r with h | h <;> simp [h]

/-- C4: every prediction invocation passes a `model_id` that is one of
exactly the two template-capable variants `1` and `2`, and the draw is
uniform between them: residue `0` of the raw random draw yields variant `1`
and residue `1` yields variant `2`, a bijection between the two
equiprobable residues and the two variants. -/
theorem model_id_two_variants_uniform (lo n reps : Nat)
    (draws : Nat → Nat → Nat) (s a t : String) :
    (∀ req ∈ sweepRequests lo n reps draws s a t,
      req.model_id = 1 ∨ req.model_id = 2) ∧
    (∀ r : Nat, (modelChoice r = 1 ↔ r % 2 = 0) ∧ (modelChoice r = 2 ↔ r % 2 = 1)) := by
  constructor
  · intro req hreq
    rcases mem_sweepRequests.mp hreq with ⟨i, j, hi, hj, rfl⟩
    rw [mkRequest_model_id, modelChoice_eq]
    rcases Nat.mod_two_eq_zero_or_one (draws (lo + i) j) with h | h <;> simp [h]
  · intro r
    rw [modelChoice_eq]
    rcases Nat.mod_two_eq_zero_or_one r with h | h <;> simp [h]

theorem model_id_two_variants_uniform_witness :
    ((mkRequest "S" "A" "T" (16 + 0) 0 (draws0 (16 + 0) 0)).model_id = 1 ∨
      (mkRequest "S" "A" "T" (16 + 0) 0 (draws0 (16 + 0) 0)).model_id = 2) ∧
    ((modelChoice 3 = 1 ↔ 3 % 2 = 0) ∧ (modelChoice 3 = 2 ↔ 3 % 2 = 1)) :=
  ⟨(model_id_two_variants_uniform 16 18 5 draws0 "S" "A" "T").1 _
      (mem_sweepRequests.mpr ⟨0, 0, by omega, by omega, rfl⟩),
   (model_id_two_variants_uniform 16 18 5 draws0 "S" "A" "T").2 3⟩

/-! ## Output names do not depend on the random draws (C8) -/

/-- C8: the list (hence the set) of output filenames produced by a complete
sweep is the same whatever values the random draws take: for any two draw
streams over the same depth range and repetition count, the generated
filenames coincide position by position, because each filename depends only
on the repetition index and the depth value. -/
theorem outnames_independent_of_draws (lo n reps : Nat)
    (draws1 draws2 : Nat → Nat → Nat) (s a t : String) :
    (sweepRequests lo n reps draws1 s a t).map PredictionRequest.outname =
      (sweepRequests lo n reps draws2 s a t).map PredictionRequest.outname := by
  induction n generalizing lo with
  | zero => rfl
  | succ k ih =>
    rw [sweepRequests_succ, sweepRequests_succ, List.map_append, List.map_append,
      ih (lo + 1)]
    congr 1
    simp [sweepChunk, List.map_map, Function.comp]

/-! ## The single alignment fetch and its reuse (C6) -/

/-- A step the notebook cell performs against the external services: the
single `run_job` call, or one `predict_structure_from_templates` call. -/
inductive Event where
  | fetchAlignment (seq : String) (templates : List String)
  | predictCall (req : PredictionRequest)

/-- Whether an event is the alignment fetch. -/
def Event.isFetch : Event → Bool
  | .fetchAlignment _ _ => true
  | .predictCall _ => false

/-- The notebook cell as an event trace: one `run_job` call before the
loops, then the sweep's prediction calls in order, each receiving the
`a3m` text and the template path `tp` returned by that single fetch. -/
def notebookEvents (lo n reps : Nat) (draws : Nat → Nat → Nat)
    (seq : String) (templates : List String) (a3m tp : String) : List Event :=
  Event.fetchAlignment seq templates ::
    (sweepRequests lo n reps draws seq a3m tp).map Event.predictCall

/-- C6: the trace of the cell contains exactly one alignment fetch (the
single `run_job` call before the loops), and every prediction call in the
trace carries exactly the `a3m_lines` and `template_path` values that this
single fetch returned, unmodified by any sweep iteration. -/
theorem alignment_fetched_once_and_reused (lo n reps : Nat)
    (draws : Nat → Nat → Nat) (seq : String) (templates : List String)
    (a3m tp : String) :
    (notebookEvents lo n reps draws seq templates a3m tp).countP Event.isFetch = 1 ∧
    ∀ req, Event.predictCall req ∈ notebookEvents lo n reps draws seq templates a3m tp →
      req.a3m_lines = a3m ∧ req.template_path = tp := by
  constructor
  · unfold notebookEvents
    rw [List.countP_cons_of_pos _ _ (by rfl)]
    have hz : ∀ l : List PredictionRequest,
        (l.map Event.predictCall).countP Event.isFetch = 0 := by
      intro l
      induction l with
      | nil => rfl
      | cons x xs ih =>
        rw [List.map_cons, List.countP_cons_of_neg _ _ (by simp [Event.isFetch]), ih]
    rw [hz]
  · intro req hreq
    rcases List.mem_cons.mp hreq with h | h
    · cases h
    · rcases List.mem_map.mp h with ⟨req2, hmem, heq⟩
      cases heq
      rcases mem_sweepRequests.mp hmem with ⟨i, j, hi, hj, rfl⟩
      exact ⟨rfl, rfl⟩

theorem alignment_fetched_once_and_reused_witness :
    (notebookEvents 16 18 5 draws0 "S" [] "A" "T").countP Event.isFetch = 1 ∧
    ((mkRequest "S" "A" "T" (16 + 0) 0 (draws0 (16 + 0) 0)).a3m_lines = "A" ∧
      (mkRequest "S" "A" "T" (16 + 0) 0 (draws0 (16 + 0) 0)).template_path = "T") :=
  ⟨(alignment_fetched_once_and_reused 16 18 5 draws0 "S" [] "A" "T").1,
   (alignment_fetched_once_and_reused 16 18 5 draws0 "S" [] "A" "T").2 _
     (List.mem_cons_of_mem _ (List.mem_map_of_mem _
       (mem_sweepRequests.mpr ⟨0, 0, by omega, by omega, rfl⟩)))⟩

/-! ## The sequence every invocation receives (C10) -/

/-- C10: every prediction invocation of the sweep receives the sequence
stored by the `MMSeqs2Runner` object — the caller-supplied sequence with
whitespace removed — and this value is the same for all invocations; the
second conjunct states the whitespace-removal relation with the raw
caller-supplied string. -/
theorem sweep_seq_constant_whitespace_stripped (lo n reps : Nat)
    (draws : Nat → Nat → Nat) (sequence a3m tp : String) :
    (∀ req ∈ sweepRequests lo n reps draws (runnerSeq sequence) a3m tp,
      req.seq = runnerSeq sequence) ∧
    (runnerSeq sequence).data = sequence.data.filter (fun c => !c.isWhitespace) := by
  constructor
  · intro req hreq
    rcases mem_sweepRequests.mp hreq with ⟨i, j, hi, hj, rfl⟩
    rfl
  · rfl

theorem sweep_seq_constant_whitespace_stripped_witness :
    (mkRequest (runnerSeq "AB C") "A" "T" (16 + 0) 0 (draws0 (16 + 0) 0)).seq =
      runnerSeq "AB C" ∧
    (runnerSeq "AB C").data = "AB C".data.filter (fun c => !c.isWhitespace) :=
  ⟨(sweep_seq_constant_whitespace_stripped 16 18 5 draws0 "AB C" "A" "T").1 _
      (mem_sweepRequests.mpr ⟨0, 0, by omega, by omega, rfl⟩),
   (sweep_seq_constant_whitespace_stripped 16 18 5 draws0 "AB C" "A" "T").2⟩

/-! ## Template policy of the alignment client (C3) -/

/-- Modelled from the spec: the template policy of `MMSeqs2Runner.run_job`,
whose code is not part of this notebook (`if no templates are specified, or
the list is empty, all templates the service can find are used; explicit
template lists are treated as an inclusion filter`).  `found` is the list of
templates the remote service reports; `requested` is the caller-supplied
list; the result is the list of templates the returned bundle references. -/
def filterTemplates (requested found : List String) : List String :=
  if requested.isEmpty then found
  else found.filter fun t => requested.contains t

/-- C3: with no caller-supplied templates the bundle references every
template the service reports, unfiltered; with a non-empty caller list it
references only templates drawn from that list (that the service found),
and is empty when none matched. -/
theorem template_policy (requested found : List String) :
    (requested = [] → filterTemplates requested found = found) ∧
    (requested ≠ [] →
      ∀ t ∈ filterTemplates requested found, t ∈ requested ∧ t ∈ found) ∧
    (requested ≠ [] → (∀ t ∈ found, t ∉ requested) →
      filterTemplates requested found = []) := by
  refine ⟨?_, ?_, ?_⟩
  · rintro rfl
    simp [filterTemplates]
  · intro hne t ht
    rw [filterTemplates, if_neg (by simpa [List.isEmpty_iff] using hne)] at ht
    rcases List.mem_filter.mp ht with ⟨htf, htr⟩
    exact ⟨by simpa using htr, htf⟩
  · intro hne hnone
    rw [filterTemplates, if_neg (by simpa [List.isEmpty_iff] using hne)]
    refine List.filter_eq_nil_iff.mpr ?_
    intro t ht
    simpa using hnone t ht

theorem template_policy_witness :
    filterTemplates [] ["6LB8_A", "6FW2_A"] = ["6LB8_A", "6FW2_A"] ∧
    (("6LB8_A" : String) ∈ ["6LB8_A"] ∧ ("6LB8_A" : String) ∈ ["6LB8_A", "6FW2_A"]) ∧
    filterTemplates ["4PK0_A"] ["6LB8_A"] = [] :=
  ⟨(template_policy [] ["6LB8_A", "6FW2_A"]).1 rfl,
   (template_policy ["6LB8_A"] ["6LB8_A", "6FW2_A"]).2.1 (by decide) "6LB8_A" (by decide),
   (template_policy ["4PK0_A"] ["6LB8_A"]).2.2 (by decide) (by decide)⟩

/-! ## Error propagation (C7) -/

/-- The sweep body under Python exception semantics: `op req` is the outcome
of one `predict_structure_from_templates` call (`Except.error` when it
raises).  The cell has no try/except, so `runSteps` attempts the invocations
strictly in order and stops at the first raise: it returns the list of
invocations actually attempted, and the first error if any. -/
def runSteps (op : PredictionRequest → Except String Unit) :
    List PredictionRequest → List PredictionRequest × Option String
  | [] => ([], none)
  | req :: rest =>
    match op req with
    | .error e => ([req], some e)
    | .ok _ =>
      let r := runSteps op rest
      (req :: r.1, r.2)

/-- The whole cell under exception semantics: the single `run_job` call
(`fetch`), then the sweep over its returned bundle.  A fetch error
propagates with no prediction attempted. -/
def runNotebook (lo n reps : Nat) (draws : Nat → Nat → Nat) (seq : String)
    (fetch : Except String (String × String))
    (op : PredictionRequest → Except String Unit) :
    List PredictionRequest × Option String :=
  match fetch with
  | .error e => ([], some e)
  | .ok (a3m, tp) => runSteps op (sweepRequests lo n reps draws seq a3m tp)

/-- C7: the orchestration layer catches nothing and retries nothing.  If the
alignment fetch raises, the error propagates and no prediction is attempted;
if a prediction raises after a prefix of successful ones, the error
propagates and exactly the invocations up to and including the failing one
were attempted — no later iteration runs. -/
theorem errors_propagate_and_halt (lo n reps : Nat)
    (draws : Nat → Nat → Nat) (seq : String)
    (op : PredictionRequest → Except String Unit) (e : String)
    (l1 l2 : List PredictionRequest) (req : PredictionRequest) :
    (runNotebook lo n reps draws seq (.error e) op = ([], some e)) ∧
    ((∀ r ∈ l1, op r = .ok ()) → op req = .error e →
      runSteps op (l1 ++ req :: l2) = (l1 ++ [req], some e)) := by
  constructor
  · rfl
  · intro hok herr
    induction l1 with
    | nil => simp [runSteps, herr]
    | cons x xs ih =>
      have hx : op x = .ok () := hok x (List.mem_cons_self x xs)
      simp [runSteps, hx, ih fun r hr => hok r (List.mem_cons_of_mem x hr)]

/-- A prediction oracle for the witness: the call at depth 17 raises. -/
def opW : PredictionRequest → Except String Unit :=
  fun req => if req.max_extra_msa = 17 then .error "OOM" else .ok ()

/-- A successful invocation for the witness. -/
def reqOkW : PredictionRequest := mkRequest "S" "A" "T" 16 0 0

/-- The failing invocation for the witness. -/
def reqBadW : PredictionRequest := mkRequest "S" "A" "T" 17 0 0

theorem errors_propagate_and_halt_witness :
    runNotebook 16 18 5 draws0 "S" (.error "DOWN") opW = ([], some "DOWN") ∧
    runSteps opW ([reqOkW] ++ reqBadW :: [reqOkW]) = ([reqOkW] ++ [reqBadW], some "OOM") :=
  ⟨(errors_propagate_and_halt 16 18 5 draws0 "S" opW "DOWN" [] [] reqOkW).1,
   (errors_propagate_and_halt 16 18 5 draws0 "S" opW "OOM" [reqOkW] [reqOkW] reqBadW).2
     (by
       intro r hr
       rcases List.mem_singleton.mp hr with rfl
       rfl)
     (by rfl)⟩

/-! ## Uniqueness of output filenames and overwrite semantics (C5)

`outname = f"{n_model}_{nseq}.pdb"` is injective in the pair
`(n_model, nseq)`: a decimal numeral contains no underscore, so the first
underscore splits the name unambiguously, and decimal numerals denote their
values injectively.  We prove the latter by reading the numeral back. -/

/-- Reads a decimal digit string back into the number it denotes. -/
def decodeDigits (cs : List Char) : Nat :=
  cs.foldl (fun acc c => acc * 10 + (c.toNat - 48)) 0

theorem digitChar_val : ∀ d, d < 10 → (Nat.digitChar d).toNat - 48 = d := by
  decide

theorem digitChar_isDigit : ∀ d, d < 10 → (Nat.digitChar d).isDigit = true := by
  decide

theorem toDigitsCore_append (b : Nat) :
    ∀ (f n : Nat) (l1 l2 : List Char),
      Nat.toDigitsCore b f n (l1 ++ l2) = Nat.toDigitsCore b f n l1 ++ l2 := by
  intro f
  induction f with
  | zero => intro n l1 l2; rfl
  | succ k ih =>
    intro n l1 l2
    simp only [Nat.toDigitsCore]
    by_cases h : n / b = 0
    · simp [h]
    · simp only [h, if_false]
      exact ih (n / b) (Nat.digitChar (n % b) :: l1) l2

theorem decode_toDigitsCore :
    ∀ (f n : Nat), n < 10 ^ f →
      decodeDigits (Nat.toDigitsCore 10 f n []) = n := by
  intro f
  induction f with
  | zero =>
    intro n h
    have hn : n = 0 := by simpa using h
    subst hn
    rfl
  | succ k ih =>
    intro n h
    simp only [Nat.toDigitsCore]
    by_cases h0 : n / 10 = 0
    · have hlt : n < 10 := by omega
      have hm : n % 10 = n := by omega
      simp [h0, hm, decodeDigits, digitChar_val n hlt]
    · simp only [h0, if_false]
      have hsplit : Nat.toDigitsCore 10 k (n / 10) [Nat.digitChar (n % 10)] =
          Nat.toDigitsCore 10 k (n / 10) [] ++ [Nat.digitChar (n % 10)] :=
        toDigitsCore_append 10 k (n / 10) [] [Nat.digitChar (n % 10)]
      rw [hsplit]
      have hdiv : n / 10 < 10 ^ k := by
        have hp : (10 : Nat) ^ (k + 1) = 10 ^ k * 10 := by ring
        omega
      have hrec : List.foldl (fun acc c => acc * 10 + (c.toNat - 48)) 0
          (Nat.toDigitsCore 10 k (n / 10) []) = n / 10 := ih (n / 10) hdiv
      show List.foldl (fun acc c => acc * 10 + (c.toNat - 48)) 0
          (Nat.toDigitsCore 10 k (n / 10) [] ++ [Nat.digitChar (n % 10)]) = n
      rw [List.foldl_append, hrec]
      show n / 10 * 10 + ((Nat.digitChar (n % 10)).toNat - 48) = n
      rw [digitChar_val (n % 10) (by omega)]
      omega

theorem decode_natRepr (n : Nat) : decodeDigits (Nat.repr n).data = n := by
  have h10 : (1 : Nat) < 10 := by norm_num
  have h : n < 10 ^ (n + 1) :=
    lt_of_lt_of_le (Nat.lt_pow_self h10 n)
      (Nat.pow_le_pow_right (by norm_num) (by omega))
  exact decode_toDigitsCore (n + 1) n h

theorem natRepr_injective {m n : Nat} (h : Nat.repr m = Nat.repr n) : m = n := by
  have hd := congrArg (fun s => decodeDigits s.data) h
  simpa [decode_natRepr] using hd

theorem toDigitsCore_mem_digits :
    ∀ (f n : Nat) (acc : List Char) (c : Char),
      c ∈ Nat.toDigitsCore 10 f n acc → c.isDigit = true ∨ c ∈ acc := by
  intro f
  induction f with
  | zero => intro n acc c h; exact Or.inr h
  | succ k ih =>
    intro n acc c h
    simp only [Nat.toDigitsCore] at h
    by_cases h0 : n / 10 = 0
    · rw [if_pos h0] at h
      rcases List.mem_cons.mp h with rfl | hm
      · exact Or.inl (digitChar_isDigit _ (by omega))
      · exact Or.inr hm
    · rw [if_neg h0] at h
      rcases ih (n / 10) _ c h with hd | hm
      · exact Or.inl hd
      · rcases List.mem_cons.mp hm with rfl | hm2
        · exact Or.inl (digitChar_isDigit _ (by omega))
        · exact Or.inr hm2

theorem underscore_not_mem_natRepr (n : Nat) : '_' ∉ (Nat.repr n).data := by
  intro hm
  rcases toDigitsCore_mem_digits (n + 1) n [] '_' hm with h | h
  · exact absurd h (by decide)
  · cases h

theorem append_sep_inj {x : Char} :
    ∀ (l1 l3 : List Char) {l2 l4 : List Char},
      x ∉ l1 → x ∉ l3 → l1 ++ x :: l2 = l3 ++ x :: l4 → l1 = l3 ∧ l2 = l4 := by
  intro l1
  induction l1 with
  | nil =>
    intro l3 l2 l4 h1 h3 h
    cases l3 with
    | nil =>
      refine ⟨rfl, ?_⟩
      simpa using h
    | cons b u =>
      exfalso
      rw [List.nil_append, List.cons_append] at h
      injection h with hb ht
      subst hb
      exact h3 (List.mem_cons_self _ _)
  | cons a t ih =>
    intro l3 l2 l4 h1 h3 h
    cases l3 with
    | nil =>
      exfalso
      rw [List.nil_append, List.cons_append] at h
      injection h with hb ht
      subst hb
      exact h1 (List.mem_cons_self _ _)
    | cons b u =>
      rw [List.cons_append, List.cons_append] at h
      injection h with hab ht
      subst hab
      have h1t : x ∉ t := fun hm => h1 (List.mem_cons_of_mem a hm)
      have h3u : x ∉ u := fun hm => h3 (List.mem_cons_of_mem a hm)
      rcases ih u h1t h3u ht with ⟨he1, he2⟩
      exact ⟨by rw [he1], he2⟩

theorem outStr_inj {a b a2 b2 : Nat} (h : outStr a b = outStr a2 b2) :
    a = a2 ∧ b = b2 := by
  have hd : (Nat.repr a).data ++ '_' :: ((Nat.repr b).data ++ ['.', 'p', 'd', 'b']) =
      (Nat.repr a2).data ++ '_' :: ((Nat.repr b2).data ++ ['.', 'p', 'd', 'b']) := by
    have h0 := congrArg String.data h
    have hu : ("_" : String).data = ['_'] := rfl
    have hp : (".pdb" : String).data = ['.', 'p', 'd', 'b'] := rfl
    simpa [outStr, String.data_append, hu, hp, List.append_assoc] using h0
  rcases append_sep_inj (Nat.repr a).data (Nat.repr a2).data
      (underscore_not_mem_natRepr a) (underscore_not_mem_natRepr a2) hd with ⟨h1, h2⟩
  exact ⟨natRepr_injective (String.ext h1),
    natRepr_injective (String.ext (List.append_cancel_right h2))⟩

theorem sweep_outnames_nodup (lo n reps : Nat) (draws : Nat → Nat → Nat)
    (s a t : String) :
    ((sweepRequests lo n reps draws s a t).map PredictionRequest.outname).Nodup := by
  unfold sweepRequests
  rw [List.map_flatMap]
  refine List.nodup_flatMap.mpr ⟨?_, ?_⟩
  · intro nseq _
    rw [sweepChunk, List.map_map]
    exact List.Nodup.map
      (fun j1 j2 hj => (outStr_inj (show outStr j1 nseq = outStr j2 nseq from hj)).1)
      (List.nodup_range reps)
  · refine (List.pairwise_lt_range' lo n).imp ?_
    intro x y hxy
    intro o ho1 ho2
    simp only [sweepChunk, List.map_map, List.mem_map, List.mem_range] at ho1 ho2
    rcases ho1 with ⟨j1, hj1, he1⟩
    rcases ho2 with ⟨j2, hj2, he2⟩
    have hxe : outStr j1 x = outStr j2 y := he1.trans he2.symm
    have := (outStr_inj hxe).2
    omega

/-- Modelled from the spec: the on-disk effect of one prediction invocation
(`predict.predict_structure_from_templates` is not part of this notebook;
the spec states: a file is written at the given path; pre-existing files at
that path are overwritten).  A directory is a list of (filename, contents)
pairs; writing replaces any file at that name and adds exactly one entry. -/
def writeFile (fs : List (String × String)) (name content : String) :
    List (String × String) :=
  (fs.filter fun p => !(p.1 == name)) ++ [(name, content)]

theorem writeFile_count (fs : List (String × String)) (nm c : String) :
    (writeFile fs nm c).countP (fun p => p.1 == nm) = 1 := by
  unfold writeFile
  rw [List.countP_append]
  have h1 : (fs.filter fun p => !(p.1 == nm)).countP (fun p => p.1 == nm) = 0 := by
    rw [List.countP_eq_zero]
    intro p hp
    have := List.of_mem_filter hp
    simpa using this
  rw [h1]
  simp [List.countP_cons]

theorem writeFile_overwrite (fs : List (String × String)) (nm c1 c2 : String) :
    writeFile (writeFile fs nm c1) nm c2 = writeFile fs nm c2 := by
  unfold writeFile
  rw [List.filter_append, List.filter_filter]
  simp

/-- C5: the output filenames of the distinct (depth, repetition) pairs of
one sweep are pairwise distinct (the name `f"{n_model}_{nseq}.pdb"` is
injective in the pair); each write leaves exactly one file at the written
name; and writing again at an existing name overwrites — the second write
leaves the directory exactly as a single write of the new contents would,
rather than accumulating entries. -/
theorem output_files_unique_and_overwritten (lo n reps : Nat)
    (draws : Nat → Nat → Nat) (s a t : String)
    (fs : List (String × String)) (nm c1 c2 : String) :
    ((sweepRequests lo n reps draws s a t).map PredictionRequest.outname).Nodup ∧
    (writeFile fs nm c1).countP (fun p => p.1 == nm) = 1 ∧
    writeFile (writeFile fs nm c1) nm c2 = writeFile fs nm c2 :=
  ⟨sweep_outnames_nodup lo n reps draws s a t,
   writeFile_count fs nm c1,
   writeFile_overwrite fs nm c1 c2⟩

end Af2Conformations
